import Mathlib

/-!
Shallow embedding of `drf-date-versioning` (`date_versioning/__init__.py`).

Payloads and field sets are modelled as ordered association lists with
Python-dict semantics: assignment updates the first binding in place or
appends a new binding at the end, deletion of a missing key is a `KeyError`,
and equality ignores binding order.  Fallible Python operations return
`Except PyErr`; `copy.deepcopy` is the identity in this pure model.
-/

namespace DateVersioning

/-- JSON-like payload values handled by the serializers. -/
inductive Value where
  | vNull
  | vBool (b : Bool)
  | vInt (n : Int)
  | vStr (s : String)
deriving DecidableEq, Repr

/-- Field descriptors consumed from the serialization library.  The library is
a black box; each descriptor is a tag interpreted by `toInternalValue` and
`toRepresentation` below (the two capabilities the source uses). -/
inductive FieldDecl where
  | charField
  | integerField
  | boolStrField
  | boolIntField
deriving DecidableEq, Repr

/-- Interpretation of `field.to_internal_value(raw)`. -/
def FieldDecl.toInternalValue : FieldDecl → Value → Value
  | .charField, v => v
  | .integerField, v => v
  | .boolStrField, .vStr s => .vBool (s == "yes")
  | .boolStrField, _ => .vBool false
  | .boolIntField, .vInt n => .vBool (n != 0)
  | .boolIntField, _ => .vBool false

/-- Interpretation of `field.to_representation(value)`. -/
def FieldDecl.toRepresentation : FieldDecl → Value → Value
  | .charField, v => v
  | .integerField, v => v
  | .boolStrField, .vBool b => .vStr (if b then "yes" else "no")
  | .boolStrField, v => v
  | .boolIntField, .vBool b => .vInt (if b then 1 else 0)
  | .boolIntField, v => v

/-- Ordered mapping with Python `dict` semantics. -/
abbrev Dict (β : Type) := List (String × β)

/-- Payloads map field names to values. -/
abbrev Payload := Dict Value

/-- Field sets map field names to field descriptors. -/
abbrev Fields := Dict FieldDecl

/-- Lookup `d[k]` returning `none` on a missing key. -/
def dget (k : String) : Dict β → Option β
  | [] => none
  | (k', v) :: rest => if k' = k then some v else dget k rest

/-- Assignment `d[k] = v`: replace the first binding of `k` in place, or
append a new binding at the end, as Python dicts do. -/
def dset (k : String) (v : β) : Dict β → Dict β
  | [] => [(k, v)]
  | (k', v') :: rest => if k' = k then (k', v) :: rest else (k', v') :: dset k v rest

/-- Deletion `del d[k]`: `none` models the `KeyError` on a missing key. -/
def ddel (k : String) : Dict β → Option (Dict β)
  | [] => none
  | (k', v') :: rest =>
      if k' = k then some rest
      else
        match ddel k rest with
        | none => none
        | some r => some ((k', v') :: r)

/-- Keys of the dict in declaration order, `list(d.keys())`. -/
def dkeys : Dict β → List String
  | [] => []
  | (k, _) :: rest => k :: dkeys rest

/-- Membership test `k in d`. -/
def dmem (k : String) (d : Dict β) : Bool := (dget k d).isSome

/-- Python `==` on dicts: same key-value mapping, order ignored. -/
def dictBeq [DecidableEq β] (p q : Dict β) : Bool :=
  p.all (fun kv => dget kv.1 q == some kv.2) && q.all (fun kv => dget kv.1 p == some kv.2)

deriving instance DecidableEq for Except

/-- Python exceptions that the embedded code can raise. -/
inductive PyErr where
  | typeError
  | keyError
  | attributeError
deriving DecidableEq, Repr

/-- Lift a `del`/lookup result, raising `KeyError` on a missing key. -/
def liftKey : Option γ → Except PyErr γ
  | none => .error .keyError
  | some x => .ok x

/-- The change variants of the source.  `apiChange` is the no-op base class
`APIChange`; `changeField` is the source's `ChangeField` (spec name
ChangeFieldType). -/
inductive Change where
  | apiChange
  | removeField (name : String) (field : FieldDecl) (default : Value)
  | renameField (from_name to_name : String)
  | addField (name : String) (field : FieldDecl) (default : Value)
  | changeField (name : String) (field : FieldDecl) (new_field : FieldDecl)
deriving DecidableEq, Repr

/-- Dynamic result of `change.downgrade(...)`.  Every subclass returns the
pair `(fields, payload)`, but the base class `APIChange.downgrade` returns
just its `payload` argument (`bare`). -/
inductive DownResult where
  | tuple (fields : Option Fields) (payload : Option Payload)
  | bare (payload : Option Payload)
deriving DecidableEq, Repr

/-- Embedding of `downgrade(self, fields=None, payload=None)` of each change
variant.  `copy.deepcopy` is the identity here; `RemoveField.get_value`
returns the configured default. -/
def Change.downgrade (c : Change) (fields : Option Fields) (payload : Option Payload) :
    Except PyErr DownResult :=
  match c with
  | .apiChange => .ok (.bare payload)
  | .removeField name field dflt =>
      .ok (.tuple (fields.map (dset name field)) (payload.map (dset name dflt)))
  | .renameField from_name to_name => do
      let fields' ← match fields with
        | none => pure none
        | some f => do
            let v ← liftKey (dget to_name f)
            let f1 := dset from_name v f
            let f2 ← liftKey (ddel to_name f1)
            pure (some f2)
      let payload' ← match payload with
        | none => pure none
        | some p => do
            let v ← liftKey (dget to_name p)
            let p1 := dset from_name v p
            let p2 ← liftKey (ddel to_name p1)
            pure (some p2)
      .ok (.tuple fields' payload')
  | .addField name _field _dflt => do
      let fields' ← match fields with
        | none => pure none
        | some f => do
            let f' ← liftKey (ddel name f)
            pure (some f')
      let payload' ← match payload with
        | none => pure none
        | some p => do
            let p' ← liftKey (ddel name p)
            pure (some p')
      .ok (.tuple fields' payload')
  | .changeField name field new_field => do
      let fields' := fields.map (dset name field)
      let payload' ← match payload with
        | none => pure none
        | some p => do
            let v ← liftKey (dget name p)
            let obj := new_field.toInternalValue v
            pure (some (dset name (field.toRepresentation obj) p))
      .ok (.tuple fields' payload')

/-- Embedding of `update(self, payload=None)` of each change variant.  In
`ChangeField.update` the source decodes via `new_field` into a local `obj`
that it never uses, then stores `new_field.to_representation` of the raw
payload value. -/
def Change.update (c : Change) (payload : Option Payload) :
    Except PyErr (Option Payload) :=
  match c with
  | .apiChange => .ok payload
  | .removeField name _field _dflt =>
      match payload with
      | none => .ok none
      | some p => do
          let p' ← liftKey (ddel name p)
          .ok (some p')
  | .renameField from_name to_name =>
      match payload with
      | none => .ok none
      | some p => do
          let v ← liftKey (dget from_name p)
          let p1 := dset to_name v p
          let p2 ← liftKey (ddel from_name p1)
          .ok (some p2)
  | .addField name _field dflt => .ok (payload.map (dset name dflt))
  | .changeField name _field new_field =>
      match payload with
      | none => .ok none
      | some p => do
          let v ← liftKey (dget name p)
          let _obj := new_field.toInternalValue v
          .ok (some (dset name (new_field.toRepresentation v) p))

/-- A version key mapping to either a single change or an ordered group. -/
inductive VChanges where
  | single (c : Change)
  | group (cs : List Change)
deriving DecidableEq, Repr

/-- The `Meta.versions` mapping in its declaration (dict insertion) order. -/
abbrev VersionsMeta := List (String × VChanges)

/-- Lexicographic comparison of character lists by code point, the order
Python uses on `str`. -/
def charListLt : List Char → List Char → Bool
  | [], [] => false
  | [], _ :: _ => true
  | _ :: _, [] => false
  | a :: as, b :: bs =>
      if a < b then true else if b < a then false else charListLt as bs

/-- Python's `<` on strings. -/
def pyStrLt (a b : String) : Bool := charListLt a.toList b.toList

/-- Python's `<` on strings, as a proposition. -/
def PyLt (a b : String) : Prop := pyStrLt a b = true

instance (a b : String) : Decidable (PyLt a b) :=
  inferInstanceAs (Decidable (pyStrLt a b = true))

/-- Embedding of the `versions` property: with no negotiated version the
selection is empty, otherwise it keeps the entries whose key is strictly
greater than the negotiated version, preserving declaration order (the dict
comprehension iterates `versions.items()` in insertion order). -/
def selectVersions (version : Option String) (meta : VersionsMeta) : VersionsMeta :=
  match version with
  | none => []
  | some v => meta.filter (fun kv => pyStrLt v kv.1)

/-- Model of the `VersionedSerializer` state for the serialize-an-instance
path of `data`.  `canonicalData` is the output of
`self.__class__().to_representation(self.instance)` (a black-box call into the
serialization library); `context` is `none` when no request is bound and
`some none` when the bound request carries no version; `nestedAttrs` lists the
instance attribute names that hold `VersionedSerializer` objects (what
`isinstance(getattr(self, key, None), VersionedSerializer)` tests). -/
structure VSerializer where
  declaredFields : Fields
  metaVersions : VersionsMeta
  canonicalData : Payload
  context : Option (Option String)
  nestedAttrs : List String

/-- Embedding of the `version` property: `self.context['request'].version`,
with `None` when the request or the version attribute is missing. -/
def resolveVersion : Option (Option String) → Option String
  | none => none
  | some none => none
  | some (some v) => some v

/-- The serializer's negotiated version. -/
def VSerializer.version (s : VSerializer) : Option String :=
  resolveVersion s.context

/-- The serializer's active change selection, the `versions` property. -/
def VSerializer.versions (s : VSerializer) : VersionsMeta :=
  selectVersions s.version s.metaVersions

/-- Result of `r[0]` on a `downgrade` result: tuple indexing for the
subclasses; for the base class `bare` result, `None[0]` raises `TypeError`
and indexing a dict with `0` raises `KeyError`. -/
def sub0 : DownResult → Except PyErr (Option Fields)
  | .tuple f _ => .ok f
  | .bare none => .error .typeError
  | .bare (some _) => .error .keyError

/-- Result of `r[1]` on a `downgrade` result, likewise. -/
def sub1 : DownResult → Except PyErr (Option Payload)
  | .tuple _ p => .ok p
  | .bare none => .error .typeError
  | .bare (some _) => .error .keyError

/-- Body of the `for v in version:` loop of `get_fields`:
`fields = v.downgrade(fields=fields)[0]` over a group's members. -/
def fieldsGroupFold : List Change → Option Fields → Except PyErr (Option Fields)
  | [], fields => .ok fields
  | c :: rest, fields => do
      let r ← c.downgrade fields none
      let f ← sub0 r
      fieldsGroupFold rest f

/-- One entry of the `get_fields` fold, with the source's
`try: for v in version ... except TypeError:` dispatch.  Iterating a single
`Change` raises `TypeError`, so the fallback single call runs; if the group
body itself raises `TypeError`, the fallback calls `.downgrade` on the list
object, which raises `AttributeError`. -/
def fieldsStep (vc : VChanges) (fields : Option Fields) : Except PyErr (Option Fields) :=
  match vc with
  | .group cs =>
      match fieldsGroupFold cs fields with
      | .error .typeError => .error .attributeError
      | r => r
  | .single c => do
      let r ← c.downgrade fields none
      sub0 r

/-- The whole `get_fields` fold over the selected versions. -/
def fieldsFold : VersionsMeta → Option Fields → Except PyErr (Option Fields)
  | [], fields => .ok fields
  | (_, vc) :: rest, fields => do
      let f ← fieldsStep vc fields
      fieldsFold rest f

/-- Embedding of `VersionedSerializer.get_fields`: start from the canonical
declared fields and fold `downgrade` over `self.versions.values()` in
declaration order. -/
def VSerializer.get_fields (s : VSerializer) : Except PyErr (Option Fields) :=
  fieldsFold s.versions (some s.declaredFields)

/-- Body of the payload loop of `data`: `data = v.downgrade(payload=data)[1]`
over a group's members. -/
def payloadGroupFold : List Change → Option Payload → Except PyErr (Option Payload)
  | [], payload => .ok payload
  | c :: rest, payload => do
      let r ← c.downgrade none payload
      let p ← sub1 r
      payloadGroupFold rest p

/-- One entry of the `data` fold, with the same `TypeError` dispatch as
`fieldsStep`. -/
def payloadStep (vc : VChanges) (payload : Option Payload) : Except PyErr (Option Payload) :=
  match vc with
  | .group cs =>
      match payloadGroupFold cs payload with
      | .error .typeError => .error .attributeError
      | r => r
  | .single c => do
      let r ← c.downgrade none payload
      sub1 r

/-- The downgrade fold of `data` over the selected versions. -/
def payloadFold : VersionsMeta → Option Payload → Except PyErr (Option Payload)
  | [], payload => .ok payload
  | (_, vc) :: rest, payload => do
      let p ← payloadStep vc payload
      payloadFold rest p

/-- The nested-serializer pass of `data`: for each key of the folded payload,
if the matching instance attribute is a `VersionedSerializer`, the source runs
`serializer.version = self.version`.  `VersionedSerializer.version` is
declared as a read-only property (it has a getter and no setter), so in
Python this assignment raises `AttributeError` as soon as a key matches. -/
def nestedPass (nestedAttrs : List String) : List String → Except PyErr Unit
  | [] => .ok ()
  | k :: rest =>
      if nestedAttrs.contains k then .error .attributeError
      else nestedPass nestedAttrs rest

/-- Embedding of the `data` property on the serialize-an-instance path:
serialize at the latest version, fold `downgrade` over the selected versions
in declaration order, then run the nested-serializer pass. -/
def VSerializer.data (s : VSerializer) : Except PyErr Payload := do
  let d? ← payloadFold s.versions (some s.canonicalData)
  match d? with
  | none => .error .attributeError
  | some d => do
      nestedPass s.nestedAttrs (dkeys d)
      .ok d

/-- Body of the update loop of `updated_data` over a group's members. -/
def updateGroupFold : List Change → Option Payload → Except PyErr (Option Payload)
  | [], payload => .ok payload
  | c :: rest, payload => do
      let p ← c.update payload
      updateGroupFold rest p

/-- One entry of the `updated_data` fold, with the `TypeError` dispatch. -/
def updateStep (vc : VChanges) (payload : Option Payload) : Except PyErr (Option Payload) :=
  match vc with
  | .group cs =>
      match updateGroupFold cs payload with
      | .error .typeError => .error .attributeError
      | r => r
  | .single c => c.update payload

/-- The update fold over a list of version entries. -/
def updateFold : VersionsMeta → Option Payload → Except PyErr (Option Payload)
  | [], payload => .ok payload
  | (_, vc) :: rest, payload => do
      let p ← updateStep vc payload
      updateFold rest p

/-- Embedding of `updated_data`: deep-copy `self.data` (identity here) and
fold `update` over `reversed(list(self.versions.values()))`, i.e. over the
selection in reversed declaration order. -/
def VSerializer.updated_data (s : VSerializer) : Except PyErr (Option Payload) := do
  let d ← s.data
  updateFold s.versions.reverse (some d)

/-- Split a character list on the dash character, the shape `'%Y-%m-%d'`
imposes on the input. -/
def splitDash : List Char → List (List Char)
  | [] => [[]]
  | c :: rest =>
      let r := splitDash rest
      if c = '-' then [] :: r
      else
        match r with
        | [] => [[c]]
        | g :: gs => (c :: g) :: gs

/-- Numeric value of a digit string. -/
def digitsVal (cs : List Char) : Nat :=
  cs.foldl (fun n c => n * 10 + (c.toNat - 48)) 0

/-- The `%Y` directive of `_strptime`: exactly four digits. -/
def parseYear (cs : List Char) : Option Nat :=
  if cs.length = 4 && cs.all Char.isDigit then some (digitsVal cs) else none

/-- The `%m` directive: one or two digits with value 1 to 12. -/
def parseMonth (cs : List Char) : Option Nat :=
  if (cs.length = 1 || cs.length = 2) && cs.all Char.isDigit then
    if 1 ≤ digitsVal cs && digitsVal cs ≤ 12 then some (digitsVal cs) else none
  else none

/-- The `%d` directive: one or two digits with value 1 to 31. -/
def parseDay (cs : List Char) : Option Nat :=
  if (cs.length = 1 || cs.length = 2) && cs.all Char.isDigit then
    if 1 ≤ digitsVal cs && digitsVal cs ≤ 31 then some (digitsVal cs) else none
  else none

/-- Gregorian leap-year rule used by `datetime`. -/
def isLeapYear (y : Nat) : Bool :=
  (y % 4 == 0 && y % 100 != 0) || y % 400 == 0

/-- Days in a month, as `datetime` validates them. -/
def daysInMonth (y m : Nat) : Nat :=
  if m = 2 then (if isLeapYear y then 29 else 28)
  else if m = 4 || m = 6 || m = 9 || m = 11 then 30
  else 31

/-- Embedding of `datetime.strptime(s, '%Y-%m-%d')`: the successful parses,
with the calendar validation `datetime` performs (including its minimum
year 1). -/
def parseDate (s : String) : Option (Nat × Nat × Nat) :=
  match splitDash s.toList with
  | [ys, ms, ds] => do
      let y ← parseYear ys
      let m ← parseMonth ms
      let d ← parseDay ds
      if 1 ≤ y ∧ d ≤ daysInMonth y m then some (y, m, d) else none
  | _ => none

/-- Whether `datetime.strptime(s, '%Y-%m-%d')` succeeds. -/
def isValidDateString (s : String) : Bool :=
  (parseDate s).isSome

/-- Zero-padded two-digit rendering, `%m` and `%d` of `strftime`. -/
def pad2 (n : Nat) : String :=
  if n < 10 then "0" ++ toString n else toString n

/-- Zero-padded four-digit rendering, `%Y` of `strftime` for current years. -/
def pad4 (n : Nat) : String :=
  if n < 10 then "000" ++ toString n
  else if n < 100 then "00" ++ toString n
  else if n < 1000 then "0" ++ toString n
  else toString n

/-- Rendering of `datetime.now().strftime('%Y-%m-%d')` for a current date. -/
def formatDate : Nat × Nat × Nat → String
  | (y, m, d) => pad4 y ++ "-" ++ pad2 m ++ "-" ++ pad2 d

/-- Outcome of `DateHeaderVersioning.determine_version`. -/
inductive VersionResult where
  | accepted (version : String)
  | notAcceptable (msg : String)
deriving DecidableEq, Repr

/-- The fixed user-facing message of `DateHeaderVersioning`. -/
def invalid_version_message : String := "Invalid version in \"X-Version\" header."

/-- Embedding of `determine_version`: a missing `X-Version` header yields the
current date formatted `%Y-%m-%d`; a present header is returned verbatim when
`strptime` accepts it and otherwise raises `NotAcceptable` with the fixed
message. -/
def determine_version (header : Option String) (now : Nat × Nat × Nat) : VersionResult :=
  match header with
  | none => .accepted (formatDate now)
  | some v =>
      if isValidDateString v then .accepted v
      else .notAcceptable invalid_version_message

/-- Chronological order on parsed dates. -/
def dateLt (a b : Nat × Nat × Nat) : Prop :=
  a.1 < b.1 ∨ (a.1 = b.1 ∧ (a.2.1 < b.2.1 ∨ (a.2.1 = b.2.1 ∧ a.2.2 < b.2.2)))

instance (a b : Nat × Nat × Nat) : Decidable (dateLt a b) := by
  unfold dateLt
  infer_instance

/-- Round trip of one change in the direction of claim C6 and C7:
`update` (apply) and then `downgrade` (unapply) on a payload, extracting the
payload component the way the serializer folds do. -/
def roundtrip (c : Change) (p : Payload) : Except PyErr (Option Payload) := do
  let p1 ← c.update (some p)
  let r ← c.downgrade none p1
  match r with
  | .tuple _ q => .ok q
  | .bare q => .ok q

/-- Descending-by-key order on version entries (newest first). -/
def descByKey (a b : String × VChanges) : Prop := PyLt b.1 a.1

instance : DecidableRel descByKey :=
  fun a b => inferInstanceAs (Decidable (PyLt b.1 a.1))

/-- The active selection sorted descending by key, the order the spec claims
for the downgrade folds. -/
def sortedSelection (s : VSerializer) : VersionsMeta :=
  List.insertionSort descByKey s.versions

/-- Modelled from the spec: the field-set fold taken in descending (newest
first) key order. -/
def get_fields_sortedSpec (s : VSerializer) : Except PyErr (Option Fields) :=
  fieldsFold (sortedSelection s) (some s.declaredFields)

/-- Modelled from the spec: the output-payload fold taken in descending key
order, followed by the nested pass. -/
def data_sortedSpec (s : VSerializer) : Except PyErr Payload := do
  let d? ← payloadFold (sortedSelection s) (some s.canonicalData)
  match d? with
  | none => .error .attributeError
  | some d => do
      nestedPass s.nestedAttrs (dkeys d)
      .ok d

/-- Modelled from the spec: the update fold taken in ascending (oldest first)
key order, i.e. the reverse of the descending order. -/
def updated_data_sortedSpec (s : VSerializer) : Except PyErr (Option Payload) := do
  let d ← data_sortedSpec s
  updateFold (sortedSelection s).reverse (some d)

/-- Modelled from the spec: the update direction of ChangeFieldType as claim
C2 states it, decoding `payload[name]` via the old field and re-encoding the
decoded object via the new field. -/
def changeFieldUpdateClaim (name : String) (field new_field : FieldDecl) (p : Payload) :
    Except PyErr Payload := do
  let v ← liftKey (dget name p)
  let obj := field.toInternalValue v
  .ok (dset name (new_field.toRepresentation obj) p)

/-! Basic lemmas about the dict operations. -/

theorem liftKey_some (x : γ) : liftKey (some x) = (.ok x : Except PyErr γ) := rfl

theorem liftKey_none : liftKey (none : Option γ) = (.error .keyError : Except PyErr γ) := rfl

theorem ok_bind (x : γ) (f : γ → Except PyErr δ) :
    ((.ok x : Except PyErr γ) >>= f) = f x := rfl

theorem error_bind (e : PyErr) (f : γ → Except PyErr δ) :
    ((.error e : Except PyErr γ) >>= f) = .error e := rfl

theorem dget_dset_self (k : String) (v : β) (d : Dict β) :
    dget k (dset k v d) = some v := by
  induction d with
  | nil => simp [dget, dset]
  | cons kv rest ih =>
      obtain ⟨k', v'⟩ := kv
      by_cases h : k' = k
      · simp [dget, dset, h]
      · simp [dget, dset, h, ih]

theorem dget_dset_ne (k' k : String) (v : β) (d : Dict β) (h : k' ≠ k) :
    dget k' (dset k v d) = dget k' d := by
  have hk : k ≠ k' := Ne.symm h
  induction d with
  | nil => simp [dget, dset, hk]
  | cons kv rest ih =>
      obtain ⟨k0, v0⟩ := kv
      by_cases h0 : k0 = k
      · subst h0
        simp [dget, dset, hk]
      · by_cases h1 : k0 = k'
        · simp [dget, dset, h0, h1, h]
        · simp [dget, dset, h0, h1, ih]

theorem ddel_of_dmem (k : String) (d : Dict β) (h : dmem k d = true) :
    ∃ d', ddel k d = some d' := by
  induction d with
  | nil => simp [dmem, dget] at h
  | cons kv rest ih =>
      obtain ⟨k0, v0⟩ := kv
      by_cases h0 : k0 = k
      · exact ⟨rest, by simp [ddel, h0]⟩
      · simp only [dmem, dget, if_neg h0] at h
        obtain ⟨d', hd'⟩ := ih h
        exact ⟨(k0, v0) :: d', by simp [ddel, h0, hd']⟩

theorem dget_ddel_ne (k' k : String) (d d' : Dict β) (h : ddel k d = some d')
    (hne : k' ≠ k) : dget k' d' = dget k' d := by
  induction d generalizing d' with
  | nil => simp [ddel] at h
  | cons kv rest ih =>
      obtain ⟨k0, v0⟩ := kv
      by_cases h0 : k0 = k
      · subst h0
        simp only [ddel, if_pos rfl] at h
        cases h
        have h1 : ¬ k0 = k' := fun he => hne he.symm
        simp [dget, h1]
      · simp only [ddel, if_neg h0] at h
        cases hd : ddel k rest with
        | none => rw [hd] at h; exact absurd h (by simp)
        | some r =>
            rw [hd] at h
            cases h
            by_cases h1 : k0 = k'
            · simp [dget, h1]
            · simp [dget, h1, ih r hd]

theorem dmem_iff_mem_dkeys (k : String) (d : Dict β) :
    dmem k d = true ↔ k ∈ dkeys d := by
  induction d with
  | nil => simp [dmem, dget, dkeys]
  | cons kv rest ih =>
      obtain ⟨k0, v0⟩ := kv
      by_cases h0 : k0 = k
      · simp [dmem, dget, dkeys, h0]
      · have h1 : ¬ k = k0 := fun he => h0 he.symm
        simp only [dmem, dget, if_neg h0, dkeys, List.mem_cons, h1, false_or]
        exact ih

theorem dget_ddel_self (k : String) (d d' : Dict β) (hnd : (dkeys d).Nodup)
    (h : ddel k d = some d') : dget k d' = none := by
  induction d generalizing d' with
  | nil => simp [ddel] at h
  | cons kv rest ih =>
      obtain ⟨k0, v0⟩ := kv
      simp only [dkeys, List.nodup_cons] at hnd
      by_cases h0 : k0 = k
      · subst h0
        simp only [ddel, if_pos rfl] at h
        cases h
        cases hg : dget k0 rest with
        | none => rfl
        | some v =>
            exact absurd ((dmem_iff_mem_dkeys k0 rest).mp (by simp [dmem, hg])) hnd.1
      · simp only [ddel, if_neg h0] at h
        cases hd : ddel k rest with
        | none => rw [hd] at h; exact absurd h (by simp)
        | some r =>
            rw [hd] at h
            cases h
            simp [dget, h0, ih r hnd.2 hd]

theorem ddel_dset_not_mem (k : String) (v : β) (d : Dict β) (h : dmem k d = false) :
    ddel k (dset k v d) = some d := by
  induction d with
  | nil => simp [dset, ddel]
  | cons kv rest ih =>
      obtain ⟨k0, v0⟩ := kv
      by_cases h0 : k0 = k
      · simp [dmem, dget, h0] at h
      · simp only [dmem, dget, if_neg h0] at h
        simp [dset, ddel, h0, ih h]

theorem ddel_dset_mem (k : String) (v : β) (d : Dict β) (h : dmem k d = true) :
    ddel k (dset k v d) = ddel k d := by
  induction d with
  | nil => simp [dmem, dget] at h
  | cons kv rest ih =>
      obtain ⟨k0, v0⟩ := kv
      by_cases h0 : k0 = k
      · simp [dset, ddel, h0]
      · simp only [dmem, dget, if_neg h0] at h
        simp [dset, ddel, h0, ih h]

theorem dset_dset_self (k : String) (v v' : β) (d : Dict β) :
    dset k v' (dset k v d) = dset k v' d := by
  induction d with
  | nil => simp [dset]
  | cons kv rest ih =>
      obtain ⟨k0, v0⟩ := kv
      by_cases h0 : k0 = k
      · simp [dset, h0]
      · simp [dset, h0, ih]

theorem dset_eq_of_dget (k : String) (v : β) (d : Dict β) (h : dget k d = some v) :
    dset k v d = d := by
  induction d with
  | nil => simp [dget] at h
  | cons kv rest ih =>
      obtain ⟨k0, v0⟩ := kv
      by_cases h0 : k0 = k
      · simp only [dget, if_pos h0] at h
        cases h
        simp [dset, h0]
      · simp only [dget, if_neg h0] at h
        simp [dset, h0, ih h]

theorem dkeys_dset (k : String) (v : β) (d : Dict β) :
    dkeys (dset k v d) = if dmem k d then dkeys d else dkeys d ++ [k] := by
  induction d with
  | nil => simp [dset, dkeys, dmem, dget]
  | cons kv rest ih =>
      obtain ⟨k0, v0⟩ := kv
      by_cases h0 : k0 = k
      · simp [dset, dkeys, dmem, dget, h0]
      · have hms : dmem k ((k0, v0) :: rest) = dmem k rest := by
          simp [dmem, dget, h0]
        rw [hms]
        by_cases hm : dmem k rest = true
        · rw [if_pos hm]
          simp [dset, dkeys, h0, ih, hm]
        · rw [if_neg (by simp [hm])]
          simp [dset, dkeys, h0, ih, hm]

theorem dnodup_dset (k : String) (v : β) (d : Dict β) (h : (dkeys d).Nodup) :
    (dkeys (dset k v d)).Nodup := by
  rw [dkeys_dset]
  by_cases hm : dmem k d = true
  · simp [hm, h]
  · have hk : k ∉ dkeys d := fun hin => hm ((dmem_iff_mem_dkeys k d).mpr hin)
    rw [if_neg (by simp [hm])]
    simp [List.nodup_append, h, hk]

theorem dkeys_ddel_sublist (k : String) (d d' : Dict β) (h : ddel k d = some d') :
    List.Sublist (dkeys d') (dkeys d) := by
  induction d generalizing d' with
  | nil => simp [ddel] at h
  | cons kv rest ih =>
      obtain ⟨k0, v0⟩ := kv
      by_cases h0 : k0 = k
      · simp only [ddel, if_pos h0] at h
        cases h
        exact List.sublist_cons_self _ _
      · simp only [ddel, if_neg h0] at h
        cases hd : ddel k rest with
        | none => rw [hd] at h; exact absurd h (by simp)
        | some r =>
            rw [hd] at h
            cases h
            exact (ih r hd).cons₂ _

theorem dnodup_ddel (k : String) (d d' : Dict β) (h : ddel k d = some d')
    (hnd : (dkeys d).Nodup) : (dkeys d').Nodup :=
  (dkeys_ddel_sublist k d d' h).nodup hnd

theorem ddel_none_of_not_mem (k : String) (d : Dict β) (h : dmem k d = false) :
    ddel k d = none := by
  induction d with
  | nil => rfl
  | cons kv rest ih =>
      obtain ⟨k0, v0⟩ := kv
      by_cases h0 : k0 = k
      · simp [dmem, dget, h0] at h
      · simp only [dmem, dget, if_neg h0] at h
        simp [ddel, h0, ih h]

theorem dmem_of_ddel (k : String) (d d' : Dict β) (h : ddel k d = some d') :
    dmem k d = true := by
  cases hm : dmem k d with
  | true => rfl
  | false => rw [ddel_none_of_not_mem k d hm] at h; exact absurd h (by simp)

theorem pure_bindE (x : γ) (f : γ → Except PyErr δ) :
    ((pure x : Except PyErr γ) >>= f) = f x := rfl

/-! Round-trip behaviour of the individual changes. -/

theorem roundtrip_removeField (name : String) (fld : FieldDecl) (dflt : Value)
    (p p1 : Payload) (h : ddel name p = some p1) :
    roundtrip (.removeField name fld dflt) p = .ok (some (dset name dflt p1)) := by
  simp only [roundtrip, Change.update, Change.downgrade, h, liftKey_some, ok_bind,
    Option.map]

theorem roundtrip_addField_not_mem (name : String) (fld : FieldDecl) (dflt : Value)
    (p : Payload) (h : dmem name p = false) :
    roundtrip (.addField name fld dflt) p = .ok (some p) := by
  have hd : ddel name (dset name dflt p) = some p := ddel_dset_not_mem name dflt p h
  simp only [roundtrip, Change.update, Change.downgrade, Option.map, hd, liftKey_some,
    ok_bind, pure_bindE]

theorem roundtrip_addField_mem (name : String) (fld : FieldDecl) (dflt : Value)
    (p p1 : Payload) (h : ddel name p = some p1) :
    roundtrip (.addField name fld dflt) p = .ok (some p1) := by
  have hd : ddel name (dset name dflt p) = some p1 := by
    rw [ddel_dset_mem name dflt p (dmem_of_ddel name p p1 h)]
    exact h
  simp only [roundtrip, Change.update, Change.downgrade, Option.map, hd, liftKey_some,
    ok_bind, pure_bindE]

theorem roundtrip_changeField (name : String) (fld new_field : FieldDecl)
    (p : Payload) (v : Value) (h : dget name p = some v)
    (hl : fld.toRepresentation (new_field.toInternalValue (new_field.toRepresentation v)) = v) :
    roundtrip (.changeField name fld new_field) p = .ok (some p) := by
  have h1 : dget name (dset name (new_field.toRepresentation v) p)
      = some (new_field.toRepresentation v) := dget_dset_self name _ p
  simp only [roundtrip, Change.update, Change.downgrade, h, h1, liftKey_some, ok_bind,
    pure_bindE, Option.map]
  rw [dset_dset_self, hl, dset_eq_of_dget name v p h]

theorem roundtrip_renameField (fn tn : String) (p : Payload) (v : Value)
    (hnd : (dkeys p).Nodup) (h : dget fn p = some v) (hm : dmem tn p = false) :
    ∃ q, roundtrip (.renameField fn tn) p = .ok (some q) ∧
      ∀ k, dget k q = dget k p := by
  have hft : fn ≠ tn := by
    intro he
    rw [he] at h
    rw [show dmem tn p = true by simp [dmem, h]] at hm
    exact absurd hm (by simp)
  have h1 : dget fn (dset tn v p) = some v := by
    rw [dget_dset_ne fn tn v p hft]
    exact h
  obtain ⟨p2, hp2⟩ := ddel_of_dmem fn (dset tn v p) (by simp [dmem, h1])
  have h2 : dget tn p2 = some v := by
    rw [dget_ddel_ne tn fn (dset tn v p) p2 hp2 (Ne.symm hft)]
    exact dget_dset_self tn v p
  obtain ⟨q, hq⟩ := ddel_of_dmem tn (dset fn v p2)
    (by simp [dmem, dget_dset_ne tn fn v p2 (Ne.symm hft), h2])
  have hnd3 : (dkeys (dset fn v p2)).Nodup :=
    dnodup_dset fn v p2
      (dnodup_ddel fn (dset tn v p) p2 hp2 (dnodup_dset tn v p hnd))
  refine ⟨q, ?_, ?_⟩
  · simp only [roundtrip, Change.update, Change.downgrade, h, h2, hp2, hq, liftKey_some,
      ok_bind, pure_bindE]
  · intro k
    by_cases hk : k = tn
    · subst hk
      rw [dget_ddel_self k (dset fn v p2) q hnd3 hq]
      cases hg : dget k p with
      | none => rfl
      | some w => rw [show dmem k p = true by simp [dmem, hg]] at hm; exact absurd hm (by simp)
    · rw [dget_ddel_ne k tn (dset fn v p2) q hq hk]
      by_cases hkf : k = fn
      · subst hkf
        rw [dget_dset_self k v p2, h]
      · rw [dget_dset_ne k fn v p2 hkf,
          dget_ddel_ne k fn (dset tn v p) p2 hp2 hkf,
          dget_dset_ne k tn v p hk]

theorem update_changeField (name : String) (fld new_field : FieldDecl) (p : Payload)
    (v : Value) (h : dget name p = some v) :
    Change.update (.changeField name fld new_field) (some p)
      = .ok (some (dset name (new_field.toRepresentation v) p)) := by
  simp only [Change.update, h, liftKey_some, ok_bind]

theorem downgrade_changeField (name : String) (fld new_field : FieldDecl)
    (fs : Option Fields) (p : Payload) (v : Value) (h : dget name p = some v) :
    Change.downgrade (.changeField name fld new_field) fs (some p)
      = .ok (.tuple (fs.map (dset name fld))
          (some (dset name (fld.toRepresentation (new_field.toInternalValue v)) p))) := by
  simp only [Change.downgrade, h, liftKey_some, ok_bind, pure_bindE]

/-! Order facts about the Python string comparison. -/

theorem charListLt_irrefl (cs : List Char) : charListLt cs cs = false := by
  induction cs with
  | nil => rfl
  | cons c rest ih => simp [charListLt, lt_irrefl, ih]

theorem pyStrLt_irrefl (a : String) : pyStrLt a a = false :=
  charListLt_irrefl a.toList

theorem charListLt_asymm (as bs : List Char) (h : charListLt as bs = true) :
    charListLt bs as = false := by
  induction as generalizing bs with
  | nil =>
      cases bs with
      | nil => simp [charListLt] at h
      | cons b bs' => rfl
  | cons a as' ih =>
      cases bs with
      | nil => simp [charListLt] at h
      | cons b bs' =>
          by_cases hab : a < b
          · have h1 : ¬ b < a := lt_asymm hab
            simp [charListLt, h1, hab]
          · by_cases hba : b < a
            · simp [charListLt, hab, hba] at h
            · simp only [charListLt, if_neg hab, if_neg hba] at h
              simp [charListLt, hab, hba, ih bs' h]

theorem pyStrLt_asymm (a b : String) (h : pyStrLt a b = true) : pyStrLt b a = false :=
  charListLt_asymm a.toList b.toList h

/-! Facts about the serializer folds. -/

theorem nestedPass_ok (attrs ks : List String)
    (h : ∀ k ∈ ks, attrs.contains k = false) : nestedPass attrs ks = .ok () := by
  induction ks with
  | nil => rfl
  | cons k rest ih =>
      have hk : attrs.contains k = false := h k (List.mem_cons_self k rest)
      simp only [nestedPass, hk]
      simpa using ih fun k' hk' => h k' (List.mem_cons_of_mem k hk')

theorem sortedSelection_eq_of_sorted (s : VSerializer)
    (h : List.Sorted descByKey s.metaVersions) : sortedSelection s = s.versions := by
  have hs : List.Sorted descByKey s.versions := by
    unfold VSerializer.versions selectVersions
    cases hv : s.version with
    | none => simp
    | some v => exact h.filter _
  exact List.Sorted.insertionSort_eq hs

/-! Concrete serializers used to instantiate and refute the claims.  The
descending one mirrors the `PersonSerializer` of the repository's test suite;
the ascending one declares the same kind of `Meta.versions` mapping in
oldest-first order. -/

/-- A serializer whose `Meta.versions` is declared newest first. -/
def c1DescEx : VSerializer where
  declaredFields := [("name", .charField), ("eyeColor", .charField),
    ("gender", .charField), ("height", .integerField)]
  metaVersions := [("2018-08-02", .single (.removeField "hairStyle" .charField .vNull)),
    ("2018-07-29", .single (.renameField "iColor" "eyeColor")),
    ("2018-07-27", .single (.addField "gender" .charField (.vStr "male")))]
  canonicalData := [("name", .vStr "Chewbacca"), ("eyeColor", .vStr "blue"),
    ("gender", .vStr "male"), ("height", .vInt 228)]
  context := some (some "2018-07-26")
  nestedAttrs := []

/-- A serializer whose `Meta.versions` is declared oldest first. -/
def c1AscEx : VSerializer where
  declaredFields := [("g", .charField)]
  metaVersions := [("2018-01-01", .single (.removeField "g" .charField (.vStr "old"))),
    ("2018-02-01", .single (.addField "g" .charField (.vStr "new")))]
  canonicalData := [("g", .vStr "cur")]
  context := some (some "2017-12-31")
  nestedAttrs := []

/-- A serializer that registers the no-op `APIChange` at a newer version. -/
def c4NoOpEx : VSerializer where
  declaredFields := [("firstname", .charField), ("lastname", .charField)]
  metaVersions := [("2018-08-02", .single .apiChange)]
  canonicalData := [("firstname", .vStr "a"), ("lastname", .vStr "b")]
  context := some (some "2018-08-01")
  nestedAttrs := []

/-- A parent serializer with a nested versioned serializer bound to the
`homeworld` attribute, negotiated at an old version, as in the repository's
`PersonSerializer`/`HomeworldSerializer` pair. -/
def c3NestedEx : VSerializer where
  declaredFields := [("name", .charField), ("eyeColor", .charField),
    ("gender", .charField), ("homeworld", .charField)]
  metaVersions := [("2018-08-02", .single (.removeField "hairStyle" .charField .vNull)),
    ("2018-07-29", .single (.renameField "iColor" "eyeColor")),
    ("2018-07-27", .single (.addField "gender" .charField (.vStr "male")))]
  canonicalData := [("name", .vStr "Chewbacca"), ("eyeColor", .vStr "blue"),
    ("gender", .vStr "male"), ("homeworld", .vStr "Kashyyyk")]
  context := some (some "2018-07-26")
  nestedAttrs := ["homeworld"]

/-- A serializer with no request bound in its context. -/
def c8UnboundEx : VSerializer where
  declaredFields := [("name", .charField), ("height", .integerField)]
  metaVersions := [("2018-08-02", .single (.removeField "hairStyle" .charField .vNull))]
  canonicalData := [("name", .vStr "Chewbacca"), ("height", .vInt 228)]
  context := none
  nestedAttrs := []

/-- The change set used to instantiate claim C5. -/
def c5Meta : VersionsMeta :=
  [("2018-08-02", .single (.removeField "hairStyle" .charField .vNull))]

/-- C1: the claim folds active changes in descending key order for the
downgrade direction and ascending key order for updated_data, for every
declaration order of Meta.versions.  The code sorts nothing: it folds in the
declaration order of the mapping (and its reverse for updated_data).  The
amended claim proved here: when Meta.versions is declared in descending
(newest-first) key order — as the repository's serializers declare it — the
code's folds coincide with the descending-key downgrade folds and the
ascending-key update fold the spec describes. -/
theorem C1_fold_order (s : VSerializer) (h : List.Sorted descByKey s.metaVersions) :
    s.get_fields = get_fields_sortedSpec s ∧ s.data = data_sortedSpec s ∧
    s.updated_data = updated_data_sortedSpec s := by
  have he : sortedSelection s = s.versions := sortedSelection_eq_of_sorted s h
  refine ⟨?_, ?_, ?_⟩
  · unfold VSerializer.get_fields get_fields_sortedSpec
    rw [he]
  · unfold VSerializer.data data_sortedSpec
    rw [he]
  · unfold VSerializer.updated_data updated_data_sortedSpec VSerializer.data data_sortedSpec
    rw [he]

/-- C1 witness: the amended claim instantiated at the newest-first
serializer. -/
theorem C1_fold_order_witness :
    c1DescEx.get_fields = get_fields_sortedSpec c1DescEx ∧
    c1DescEx.data = data_sortedSpec c1DescEx ∧
    c1DescEx.updated_data = updated_data_sortedSpec c1DescEx :=
  C1_fold_order c1DescEx (by decide)

/-- C1 counterexample: with Meta.versions declared oldest first, all three
folds of the code differ from the descending-key folds the claim states. -/
theorem C1_fold_order_counterexample :
    c1AscEx.get_fields ≠ get_fields_sortedSpec c1AscEx ∧
    c1AscEx.data ≠ data_sortedSpec c1AscEx ∧
    c1AscEx.updated_data ≠ updated_data_sortedSpec c1AscEx := by
  refine ⟨?_, ?_, ?_⟩ <;> decide

/-- C2: the claim says ChangeFieldType's update decodes `payload[name]` via
the old field and re-encodes the decoded object via the new field.  The code
decodes via the new field into a variable it discards and stores the new
field's `to_representation` of the raw payload value; the downgrade direction
is as claimed.  Amended claim proved here: for a payload containing `name`
with value `v`, update stores `new_field.to_representation v` (the raw value,
not a decoded object), and downgrade stores
`field.to_representation (new_field.to_internal_value v)` and reinstates the
old field descriptor when a field set is supplied. -/
theorem C2_changefield_behaviour (name : String) (fld new_field : FieldDecl)
    (fs : Option Fields) (p : Payload) (v : Value) (h : dget name p = some v) :
    Change.update (.changeField name fld new_field) (some p)
      = .ok (some (dset name (new_field.toRepresentation v) p)) ∧
    Change.downgrade (.changeField name fld new_field) fs (some p)
      = .ok (.tuple (fs.map (dset name fld))
          (some (dset name (fld.toRepresentation (new_field.toInternalValue v)) p))) :=
  ⟨update_changeField name fld new_field p v h,
   downgrade_changeField name fld new_field fs p v h⟩

/-- C2 witness: the amended claim instantiated at a boolean field retyped
from a yes/no string encoding to an integer encoding. -/
theorem C2_changefield_behaviour_witness :
    Change.update (.changeField "g" .boolStrField .boolIntField)
        (some [("g", Value.vStr "yes")])
      = .ok (some [("g", Value.vStr "yes")]) ∧
    Change.downgrade (.changeField "g" .boolStrField .boolIntField)
        (some [("g", FieldDecl.boolIntField)]) (some [("g", Value.vStr "yes")])
      = .ok (.tuple (some [("g", FieldDecl.boolStrField)])
          (some [("g", Value.vStr "no")])) :=
  C2_changefield_behaviour "g" .boolStrField .boolIntField
    (some [("g", FieldDecl.boolIntField)]) [("g", Value.vStr "yes")]
    (Value.vStr "yes") (by decide)

/-- C2 counterexample: at the same input the claimed update (decode via the
old field, re-encode the decoded object via the new field) yields the integer
1, while the code's update leaves the raw string in place. -/
theorem C2_changefield_counterexample :
    Change.update (.changeField "g" .boolStrField .boolIntField)
        (some [("g", Value.vStr "yes")])
      = .ok (some [("g", Value.vStr "yes")]) ∧
    changeFieldUpdateClaim "g" .boolStrField .boolIntField [("g", Value.vStr "yes")]
      = .ok [("g", Value.vInt 1)] ∧
    (Except.ok (some [("g", Value.vStr "yes")]) : Except PyErr (Option Payload))
      ≠ .ok (some [("g", Value.vInt 1)]) := by
  refine ⟨?_, ?_, ?_⟩ <;> decide

/-- C3: the claim says reading a parent's data propagates the negotiated
version into a nested VersionedSerializer and substitutes its
version-appropriate data.  The source indeed loops over the payload keys and
runs `serializer.version = self.version`, but `version` is a getter-only
property, so the assignment raises `AttributeError` whenever the isinstance
test matches: the parent's `data` read fails instead of propagating.  This
theorem evaluates the embedded code at the failing input. -/
theorem C3_nested_version_assignment_fails :
    c3NestedEx.version = some "2018-07-26" ∧
    c3NestedEx.data = .error .attributeError := by
  refine ⟨?_, ?_⟩ <;> decide

/-- C4: the claim says every Change variant's downgrade, called with only one
of its two arguments, returns a `(fields, payload)` pair with the omitted side
passed through as None, and that a registered no-op leaves the get_fields fold
unchanged.  `APIChange.downgrade` instead returns just its payload argument:
with only `fields` supplied it returns None, so the `[0]` subscript in
`get_fields` raises TypeError and the `[1]` subscript in `data` raises
KeyError; a registered no-op crashes both folds.  This theorem evaluates the
embedded code at the failing inputs. -/
theorem C4_noop_downgrade_shape :
    Change.downgrade .apiChange (some [("firstname", FieldDecl.charField)]) none
      = .ok (.bare none) ∧
    Change.downgrade .apiChange none (some [("firstname", Value.vStr "a")])
      = .ok (.bare (some [("firstname", Value.vStr "a")])) ∧
    c4NoOpEx.get_fields = .error .typeError ∧
    c4NoOpEx.data = .error .keyError := by
  refine ⟨?_, ?_, ?_, ?_⟩ <;> decide

/-- C5: the `versions` selection keeps exactly the registered keys strictly
greater than the negotiated version: a change registered at `v2` is active for
a model negotiated at `v1 < v2` and inactive at `v2` or any later version. -/
theorem C5_selection_strictly_greater (meta : VersionsMeta) (v1 v2 later : String)
    (c : VChanges) (hmem : (v2, c) ∈ meta) (h12 : PyLt v1 v2) (h2l : PyLt v2 later) :
    (v2, c) ∈ selectVersions (some v1) meta ∧
    (v2, c) ∉ selectVersions (some v2) meta ∧
    (v2, c) ∉ selectVersions (some later) meta ∧
    (∀ w : String, (v2, c) ∈ selectVersions (some w) meta ↔ (v2, c) ∈ meta ∧ PyLt w v2) := by
  have hgen : ∀ w : String,
      (v2, c) ∈ selectVersions (some w) meta ↔ (v2, c) ∈ meta ∧ PyLt w v2 := by
    intro w
    simp [selectVersions, List.mem_filter, PyLt]
  refine ⟨(hgen v1).mpr ⟨hmem, h12⟩, ?_, ?_, hgen⟩
  · intro hin
    have h2 := ((hgen v2).mp hin).2
    rw [PyLt, pyStrLt_irrefl] at h2
    exact absurd h2 (by simp)
  · intro hin
    have h2 := ((hgen later).mp hin).2
    rw [PyLt, pyStrLt_asymm v2 later h2l] at h2
    exact absurd h2 (by simp)

/-- C5 witness: the selection instantiated at the test suite's RemoveField
registration. -/
theorem C5_selection_witness :
    ("2018-08-02", VChanges.single (.removeField "hairStyle" .charField .vNull))
      ∈ selectVersions (some "2018-08-01") c5Meta ∧
    ("2018-08-02", VChanges.single (.removeField "hairStyle" .charField .vNull))
      ∉ selectVersions (some "2018-08-02") c5Meta ∧
    ("2018-08-02", VChanges.single (.removeField "hairStyle" .charField .vNull))
      ∉ selectVersions (some "2018-09-01") c5Meta ∧
    (∀ w : String,
      ("2018-08-02", VChanges.single (.removeField "hairStyle" .charField .vNull))
        ∈ selectVersions (some w) c5Meta ↔
      ("2018-08-02", VChanges.single (.removeField "hairStyle" .charField .vNull))
        ∈ c5Meta ∧ PyLt w "2018-08-02") :=
  C5_selection_strictly_greater c5Meta "2018-08-01" "2018-08-02" "2018-09-01"
    (.single (.removeField "hairStyle" .charField .vNull))
    (by decide) (by decide) (by decide)

/-- C6: the claim says update followed by downgrade is the identity for
AddField, RenameField and ChangeFieldType on payloads where the referenced
field exists (ChangeFieldType assuming lossless conversion).  For AddField
this fails exactly when the field exists: the round trip deletes it.  Amended
claim proved here: AddField's round trip is the identity on payloads where the
field is absent, and deletes the field's binding when it is present;
RenameField's round trip preserves every lookup when the renamed-from field is
present and the renamed-to field is absent; ChangeFieldType's round trip is
the identity when the stored value survives the composite
`field.to_representation (new_field.to_internal_value (new_field.to_representation v))`
the code actually computes. -/
theorem C6_roundtrip_amended :
    (∀ (name : String) (fld : FieldDecl) (dflt : Value) (p : Payload),
        dmem name p = false → roundtrip (.addField name fld dflt) p = .ok (some p)) ∧
    (∀ (name : String) (fld : FieldDecl) (dflt : Value) (p p1 : Payload),
        ddel name p = some p1 → roundtrip (.addField name fld dflt) p = .ok (some p1)) ∧
    (∀ (fn tn : String) (p : Payload) (v : Value), (dkeys p).Nodup →
        dget fn p = some v → dmem tn p = false →
        ∃ q, roundtrip (.renameField fn tn) p = .ok (some q) ∧
          ∀ k, dget k q = dget k p) ∧
    (∀ (name : String) (fld nf : FieldDecl) (p : Payload) (v : Value),
        dget name p = some v →
        fld.toRepresentation (nf.toInternalValue (nf.toRepresentation v)) = v →
        roundtrip (.changeField name fld nf) p = .ok (some p)) :=
  ⟨roundtrip_addField_not_mem, roundtrip_addField_mem, roundtrip_renameField,
   roundtrip_changeField⟩

/-- C6 witness: the amended claim instantiated at concrete payloads. -/
theorem C6_roundtrip_witness :
    roundtrip (.addField "gender" .charField (Value.vStr "male"))
        [("name", Value.vStr "Chewbacca")]
      = .ok (some [("name", Value.vStr "Chewbacca")]) ∧
    roundtrip (.addField "gender" .charField (Value.vStr "male"))
        [("gender", Value.vStr "female")]
      = .ok (some []) ∧
    (∃ q, roundtrip (.renameField "iColor" "eyeColor") [("iColor", Value.vStr "blue")]
        = .ok (some q) ∧
      ∀ k, dget k q = dget k [("iColor", Value.vStr "blue")]) ∧
    roundtrip (.changeField "height" .integerField .integerField)
        [("height", Value.vInt 228)]
      = .ok (some [("height", Value.vInt 228)]) :=
  ⟨C6_roundtrip_amended.1 "gender" .charField (Value.vStr "male")
      [("name", Value.vStr "Chewbacca")] (by decide),
   C6_roundtrip_amended.2.1 "gender" .charField (Value.vStr "male")
      [("gender", Value.vStr "female")] [] (by decide),
   C6_roundtrip_amended.2.2.1 "iColor" "eyeColor" [("iColor", Value.vStr "blue")]
      (Value.vStr "blue") (by decide) (by decide) (by decide),
   C6_roundtrip_amended.2.2.2 "height" .integerField .integerField
      [("height", Value.vInt 228)] (Value.vInt 228) (by decide) (by decide)⟩

/-- C6 counterexample: the claim as stated fails at explicit inputs where the
referenced field exists.  AddField's round trip on a payload containing the
field deletes it; RenameField's round trip on a payload also containing the
rename target drops the target's value; ChangeFieldType's round trip turns
"yes" into "no" even though the two fields are mutually lossless on the value
involved (the old field round-trips the string and the new field round-trips
the decoded boolean). -/
theorem C6_roundtrip_counterexample :
    roundtrip (.addField "g" .charField (Value.vStr "d")) [("g", Value.vInt 7)]
      = .ok (some []) ∧
    roundtrip (.renameField "a" "b") [("a", Value.vInt 1), ("b", Value.vInt 2)]
      = .ok (some [("a", Value.vInt 1)]) ∧
    dictBeq [("a", Value.vInt 1)] [("a", Value.vInt 1), ("b", Value.vInt 2)] = false ∧
    roundtrip (.changeField "g" .boolStrField .boolIntField) [("g", Value.vStr "yes")]
      = .ok (some [("g", Value.vStr "no")]) ∧
    FieldDecl.toRepresentation .boolStrField
        (FieldDecl.toInternalValue .boolStrField (Value.vStr "yes")) = Value.vStr "yes" ∧
    FieldDecl.toInternalValue .boolIntField
        (FieldDecl.toRepresentation .boolIntField (Value.vBool true)) = Value.vBool true ∧
    Value.vStr "no" ≠ Value.vStr "yes" := by
  refine ⟨?_, ?_, ?_, ?_, ?_, ?_, ?_⟩ <;> decide

/-- C7: RemoveField's round trip is intentionally lossy: on a payload
containing the removed field, update then downgrade yields the configured
default at that field and leaves every other key unchanged. -/
theorem C7_remove_lossy (name : String) (fld : FieldDecl) (dflt : Value)
    (p : Payload) (h : dmem name p = true) :
    ∃ q, roundtrip (.removeField name fld dflt) p = .ok (some q) ∧
      dget name q = some dflt ∧ ∀ k, k ≠ name → dget k q = dget k p := by
  obtain ⟨p1, hp1⟩ := ddel_of_dmem name p h
  refine ⟨dset name dflt p1, roundtrip_removeField name fld dflt p p1 hp1,
    dget_dset_self name dflt p1, fun k hk => ?_⟩
  rw [dget_dset_ne k name dflt p1 hk, dget_ddel_ne k name p p1 hp1 hk]

/-- C7 witness: the lossy round trip at the test suite's hairStyle payload. -/
theorem C7_remove_lossy_witness :
    ∃ q, roundtrip (.removeField "hairStyle" .charField Value.vNull)
        [("name", Value.vStr "Chewbacca"), ("hairStyle", Value.vStr "fluffy")]
      = .ok (some q) ∧
      dget "hairStyle" q = some Value.vNull ∧
      ∀ k, k ≠ "hairStyle" →
        dget k q = dget k [("name", Value.vStr "Chewbacca"), ("hairStyle", Value.vStr "fluffy")] :=
  C7_remove_lossy "hairStyle" .charField Value.vNull
    [("name", Value.vStr "Chewbacca"), ("hairStyle", Value.vStr "fluffy")] (by decide)

/-- C8: with no negotiated version (no request bound, or a request carrying no
version), the active selection is empty and both the resolved field set and
the output payload are exactly the canonical ones.  The side condition says no
payload key is bound to a nested-serializer instance attribute, which always
holds at runtime because the serialization library removes declared fields
from the class namespace, so the isinstance probe of the nested pass never
matches. -/
theorem C8_unbound_canonical (s : VSerializer)
    (hctx : s.context = none ∨ s.context = some none)
    (hnested : ∀ k ∈ dkeys s.canonicalData, s.nestedAttrs.contains k = false) :
    s.versions = [] ∧ s.get_fields = .ok (some s.declaredFields) ∧
    s.data = .ok s.canonicalData := by
  have hv : s.version = none := by
    unfold VSerializer.version
    rcases hctx with h | h <;> rw [h] <;> rfl
  have hvs : s.versions = [] := by
    unfold VSerializer.versions
    rw [hv]
    rfl
  refine ⟨hvs, ?_, ?_⟩
  · unfold VSerializer.get_fields
    rw [hvs]
    rfl
  · unfold VSerializer.data
    rw [hvs]
    simp only [payloadFold, ok_bind]
    rw [nestedPass_ok s.nestedAttrs (dkeys s.canonicalData) hnested]
    rfl

/-- C8 witness: the canonical behaviour at a context-free serializer. -/
theorem C8_unbound_canonical_witness :
    c8UnboundEx.versions = [] ∧
    c8UnboundEx.get_fields = .ok (some c8UnboundEx.declaredFields) ∧
    c8UnboundEx.data = .ok c8UnboundEx.canonicalData :=
  C8_unbound_canonical c8UnboundEx (Or.inl rfl) (by decide)

/-- C9: with the X-Version header absent, determine_version returns the
current date formatted YYYY-MM-DD; with the header present it raises the
NotAcceptable error carrying the fixed message exactly when the header does
not parse under '%Y-%m-%d', so a malformed header is never replaced by a
default. -/
theorem C9_negotiation (now : Nat × Nat × Nat) (s : String) :
    determine_version none now = .accepted (formatDate now) ∧
    (determine_version (some s) now = .notAcceptable invalid_version_message ↔
      isValidDateString s = false) := by
  refine ⟨rfl, ?_⟩
  unfold determine_version
  by_cases hv : isValidDateString s = true
  · simp [hv]
  · have hf : isValidDateString s = false := by simpa using hv
    simp [hf]

/-- C10: an accepted header is returned verbatim, with no normalization: the
unpadded "2018-1-5" parses (to January 5th 2018, chronologically before
"2018-01-06"), is returned as-is, and under the strictly-greater string
selection a change registered at "2018-01-06" is excluded for a model
negotiated at "2018-1-5", so lexicographic selection disagrees with
chronological order. -/
theorem C10_verbatim_header :
    (∀ (s : String) (now : Nat × Nat × Nat), isValidDateString s = true →
        determine_version (some s) now = .accepted s) ∧
    isValidDateString "2018-1-5" = true ∧
    parseDate "2018-1-5" = some (2018, 1, 5) ∧
    parseDate "2018-01-06" = some (2018, 1, 6) ∧
    dateLt (2018, 1, 5) (2018, 1, 6) ∧
    pyStrLt "2018-1-5" "2018-01-06" = false ∧
    selectVersions (some "2018-1-5") [("2018-01-06", .single .apiChange)] = [] := by
  refine ⟨fun s now hv => by simp [determine_version, hv], ?_, ?_, ?_, ?_, ?_, ?_⟩ <;> decide

/-- C10 witness: the verbatim clause applied at the unpadded header. -/
theorem C10_verbatim_header_witness :
    determine_version (some "2018-1-5") (2018, 9, 1) = .accepted "2018-1-5" :=
  C10_verbatim_header.1 "2018-1-5" (2018, 9, 1) (by decide)

end DateVersioning
